import Mathlib

/-!
Shallow embedding of the cross-exchange arbitrage decision engine in
`catalyst/examples/arbitrage_with_interface.py`: gap computation, tiered
entry/exit trigger selection with a sort-then-overwrite loop, the open-order
gate, and the balance-aware order sizer (`place_order`).  Prices and amounts
are modelled as rationals; Python's `None`/`0.0` falsiness is modelled
explicitly where the source branches on a possibly-unset amount.
-/

namespace Arbitrage

/-- One threshold rule, `dict(gap=…, amount=…)` in the source. -/
structure Rule where
  gap : ℚ
  amount : ℚ
deriving DecidableEq, Repr

/-- An exchange as the engine reads it: its name, its base-currency cash
(`portfolio.cash`) and the balance map returned by `get_balances()`,
modelled as an association list from currency code to amount. -/
structure Exchange where
  name : String
  cash : ℚ
  balances : List (String × ℚ)
deriving DecidableEq, Repr

/-- The context fields read by `place_order` and `handle_data`:
the two exchanges, the market currency of the selling exchange's trading
pair, the entry and exit rule tables, and the slippage fraction. -/
structure Context where
  buyingExchange : Exchange
  sellingExchange : Exchange
  marketCurrency : String
  entryPoints : List Rule
  exitPoints : List Rule
  SLIPPAGE_ALLOWED : ℚ
deriving DecidableEq, Repr

/-- One emitted order, `order(asset=…, amount=…, limit_price=…)`; the asset
is identified by the exchange it trades on. -/
structure OrderIntent where
  exchangeName : String
  amount : ℚ
  limit_price : ℚ
deriving DecidableEq, Repr

/-- The `action` argument of `place_order` (the source raises on any other
string, and is only ever called with these two). -/
inductive Action where
  | enter
  | exit
deriving DecidableEq, Repr

/-- The role assignment at the top of `place_order`: which exchange enters
(buys) at which price and which exchange exits (sells), per action.
Returns `((enter_exchange, entry_price), (exit_exchange, exit_price))`. -/
def legs (ctx : Context) (buying_price selling_price : ℚ) :
    Action → (Exchange × ℚ) × (Exchange × ℚ)
  | .enter => ((ctx.buyingExchange, buying_price), (ctx.sellingExchange, selling_price))
  | .exit => ((ctx.sellingExchange, selling_price), (ctx.buyingExchange, buying_price))

/-- `place_order(context, amount, buying_price, selling_price, action)`:
the list of orders emitted by the two `order(...)` calls; an early `return`
(missing market currency, or insufficient inventory when cash was
sufficient) yields the empty list.  The inner `Option` mirrors the source's
control flow: `some a` is falling through to the emission code with the
current amount `a`, `none` is the `elif … return` abort. -/
def place_order (ctx : Context) (amount buying_price selling_price : ℚ)
    (action : Action) : List OrderIntent :=
  let l := legs ctx buying_price selling_price action
  let enter_exchange := l.1.1
  let entry_price := l.1.2
  let exit_exchange := l.2.1
  let exit_price := l.2.2
  let base_currency_amount := enter_exchange.cash
  match (exit_exchange.balances).lookup ctx.marketCurrency with
  | none => []
  | some market_currency_amount =>
    let adjusted : Option ℚ :=
      if base_currency_amount < amount * entry_price then
        some (base_currency_amount / entry_price)
      else if market_currency_amount < amount then
        none
      else
        some amount
    match adjusted with
    | none => []
    | some a =>
      [⟨enter_exchange.name, a, entry_price * (1 + ctx.SLIPPAGE_ALLOWED)⟩,
       ⟨exit_exchange.name, -a, exit_price * (1 - ctx.SLIPPAGE_ALLOWED)⟩]

/-- Python truthiness of the optional trigger amount as tested by
`if buy_amount:` / `if sell_amount:` — `None` and `0.0` are falsy. -/
def pyTruthy : Option ℚ → Bool
  | none => false
  | some a => decide (a ≠ 0)

/-- `sorted(points, key=lambda point: point['gap'])` — stable ascending. -/
def sortAsc (rules : List Rule) : List Rule :=
  rules.mergeSort fun a b => decide (a.gap ≤ b.gap)

/-- `sorted(points, key=…, reverse=True)` — stable descending. -/
def sortDesc (rules : List Rule) : List Rule :=
  rules.mergeSort fun a b => decide (b.gap ≤ a.gap)

/-- The loop condition `gap > entry_point['gap']`. -/
def entryMatches (gap : ℚ) (r : Rule) : Bool :=
  decide (r.gap < gap)

/-- The loop condition `gap < exit_point['gap']`. -/
def exitMatches (gap : ℚ) (r : Rule) : Bool :=
  decide (gap < r.gap)

/-- The entry loop of `handle_data`: iterate the entry points sorted
ascending by threshold, overwriting `buy_amount` with the amount of every
rule whose threshold the gap exceeds (last match wins). -/
def selectEntry (entryPoints : List Rule) (gap : ℚ) : Option ℚ :=
  (sortAsc entryPoints).foldl
    (fun acc r => if entryMatches gap r then some r.amount else acc) none

/-- The exit loop of `handle_data`: iterate the exit points sorted
descending by threshold, overwriting `sell_amount` with the amount of every
rule whose threshold the gap undercuts (last match wins). -/
def selectExit (exitPoints : List Rule) (gap : ℚ) : Option ℚ :=
  (sortDesc exitPoints).foldl
    (fun acc r => if exitMatches gap r then some r.amount else acc) none

/-- The trigger decision of `handle_data`: entry selection first; the exit
branch runs only when the selected `buy_amount` is falsy. -/
inductive TradeAction where
  | Enter (amount : ℚ)
  | Exit (amount : ℚ)
  | NoAction
deriving DecidableEq, Repr

/-- Which `place_order` call `handle_data` makes (if any) and with what
amount, as a function of the rule tables and the gap. -/
def triggerDecision (entryPoints exitPoints : List Rule) (gap : ℚ) :
    TradeAction :=
  let buy_amount := selectEntry entryPoints gap
  if pyTruthy buy_amount then .Enter (buy_amount.getD 0)
  else
    let sell_amount := selectExit exitPoints gap
    if pyTruthy sell_amount then .Exit (sell_amount.getD 0)
    else .NoAction

/-- `gap = (selling_price - buying_price) / buying_price`. -/
def gapOf (buying_price selling_price : ℚ) : ℚ :=
  (selling_price - buying_price) / buying_price

/-- The decision core of `handle_data`: compute the gap; return no orders
if either configured exchange reports open orders for its asset (the
open-order gate, checked before trigger selection); otherwise place the
order pair chosen by trigger selection.  `openOrders` stands for the
`get_open_orders(asset)` query, keyed by exchange name. -/
def handle_data (ctx : Context) (openOrders : String → List Unit)
    (buying_price selling_price : ℚ) : List OrderIntent :=
  let gap := gapOf buying_price selling_price
  if [ctx.buyingExchange, ctx.sellingExchange].any
      (fun ex => !(openOrders ex.name).isEmpty) then
    []
  else
    match triggerDecision ctx.entryPoints ctx.exitPoints gap with
    | .Enter a => place_order ctx a buying_price selling_price .enter
    | .Exit a => place_order ctx a buying_price selling_price .exit
    | .NoAction => []

/-- The entry rule table configured in `initialize`. -/
def entry_points : List Rule :=
  [⟨3/100, 5/100⟩, ⟨4/100, 1/10⟩, ⟨5/100, 1/2⟩]

/-- The exit rule table configured in `initialize`. -/
def exit_points : List Rule :=
  [⟨-2/100, 1/2⟩]

/-- The order pair built by the two `order(...)` calls at the end of
`place_order`, for an effective amount `a`: the enter leg buys `a` at
`entry_price * (1 + SLIPPAGE_ALLOWED)`, the exit leg sells `-a` at
`exit_price * (1 - SLIPPAGE_ALLOWED)`. -/
def emitted (ctx : Context) (buying_price selling_price : ℚ) (action : Action)
    (a : ℚ) : List OrderIntent :=
  let l := legs ctx buying_price selling_price action
  [⟨l.1.1.name, a, l.1.2 * (1 + ctx.SLIPPAGE_ALLOWED)⟩,
   ⟨l.2.1.name, -a, l.2.2 * (1 - ctx.SLIPPAGE_ALLOWED)⟩]

/-- A concrete context for examples: a buying exchange with the given cash
and a selling exchange holding the given amount of the market currency. -/
def sampleCtx (cash neoBalance : ℚ) : Context :=
  { buyingExchange := { name := "bittrex", cash := cash, balances := [("eth", cash)] }
    sellingExchange := { name := "bitfinex", cash := 100, balances := [("neo", neoBalance)] }
    marketCurrency := "neo"
    entryPoints := entry_points
    exitPoints := exit_points
    SLIPPAGE_ALLOWED := 2/100 }

/-! ### Helper lemmas about the sort-then-overwrite idiom -/

/-- Sorting an already ascending-sorted rule list is the identity. -/
lemma sortAsc_of_sorted {l : List Rule}
    (h : l.Pairwise fun a b => a.gap ≤ b.gap) : sortAsc l = l :=
  List.mergeSort_of_sorted (h.imp fun hab => decide_eq_true hab)

/-- Sorting an already descending-sorted rule list is the identity. -/
lemma sortDesc_of_sorted {l : List Rule}
    (h : l.Pairwise fun a b => b.gap ≤ a.gap) : sortDesc l = l :=
  List.mergeSort_of_sorted (h.imp fun hab => decide_eq_true hab)

/-- The overwrite loop keeps the amount of the last rule satisfying `p`:
folding is the same as searching the reversed list. -/
lemma foldl_override (p : Rule → Bool) (l : List Rule) (init : Option ℚ) :
    l.foldl (fun acc r => if p r then some r.amount else acc) init =
      match l.reverse.find? p with
      | some r => some r.amount
      | none => init := by
  induction l generalizing init with
  | nil => rfl
  | cons a t ih =>
    rw [List.foldl_cons, ih, List.reverse_cons, List.find?_append]
    cases h : t.reverse.find? p with
    | some r => simp
    | none => cases hpa : p a <;> simp [List.find?_cons, hpa]

/-- In a descending-sorted rule list, `find?` over the entry condition picks
a rule whose threshold is maximal among all still-exceeded thresholds. -/
lemma find_entry_max {gap : ℚ} :
    ∀ {l : List Rule}, l.Pairwise (fun a b => b.gap ≤ a.gap) →
      ∀ {r : Rule}, l.find? (entryMatches gap) = some r →
        r.gap < gap ∧ ∀ r' ∈ l, r'.gap < gap → r'.gap ≤ r.gap := by
  intro l
  induction l with
  | nil => intro _ r h; cases h
  | cons a t ih =>
    intro hp r hf
    obtain ⟨ha, ht⟩ := List.pairwise_cons.mp hp
    rw [List.find?_cons] at hf
    cases hq : entryMatches gap a with
    | true =>
      rw [hq] at hf
      obtain rfl : a = r := Option.some.inj hf
      refine ⟨of_decide_eq_true hq, ?_⟩
      intro r' hr' _
      rcases List.mem_cons.mp hr' with rfl | hm
      · exact le_refl _
      · exact ha r' hm
    | false =>
      rw [hq] at hf
      obtain ⟨h1, h2⟩ := ih ht hf
      refine ⟨h1, ?_⟩
      intro r' hr' hlt
      rcases List.mem_cons.mp hr' with rfl | hm
      · exact absurd (decide_eq_true hlt) (by rw [entryMatches] at hq; simp [hq])
      · exact h2 r' hm hlt

/-- In an ascending-sorted rule list, `find?` over the exit condition picks
a rule whose threshold is minimal among all still-undercut thresholds. -/
lemma find_exit_min {gap : ℚ} :
    ∀ {l : List Rule}, l.Pairwise (fun a b => a.gap ≤ b.gap) →
      ∀ {r : Rule}, l.find? (exitMatches gap) = some r →
        gap < r.gap ∧ ∀ r' ∈ l, gap < r'.gap → r.gap ≤ r'.gap := by
  intro l
  induction l with
  | nil => intro _ r h; cases h
  | cons a t ih =>
    intro hp r hf
    obtain ⟨ha, ht⟩ := List.pairwise_cons.mp hp
    rw [List.find?_cons] at hf
    cases hq : exitMatches gap a with
    | true =>
      rw [hq] at hf
      obtain rfl : a = r := Option.some.inj hf
      refine ⟨of_decide_eq_true hq, ?_⟩
      intro r' hr' _
      rcases List.mem_cons.mp hr' with rfl | hm
      · exact le_refl _
      · exact ha r' hm
    | false =>
      rw [hq] at hf
      obtain ⟨h1, h2⟩ := ih ht hf
      refine ⟨h1, ?_⟩
      intro r' hr' hlt
      rcases List.mem_cons.mp hr' with rfl | hm
      · exact absurd (decide_eq_true hlt) (by rw [exitMatches] at hq; simp [hq])
      · exact h2 r' hm hlt

/-- The ascending sort used by entry selection is indeed sorted. -/
lemma sortAsc_pairwise (rules : List Rule) :
    (sortAsc rules).Pairwise fun a b => a.gap ≤ b.gap := by
  refine (List.sorted_mergeSort ?_ ?_ rules).imp fun h => of_decide_eq_true h
  · intro a b c hab hbc
    exact decide_eq_true (le_trans (of_decide_eq_true hab) (of_decide_eq_true hbc))
  · intro a b
    rcases le_total a.gap b.gap with h | h <;> simp [h]

/-- The descending sort used by exit selection is indeed sorted. -/
lemma sortDesc_pairwise (rules : List Rule) :
    (sortDesc rules).Pairwise fun a b => b.gap ≤ a.gap := by
  refine (List.sorted_mergeSort ?_ ?_ rules).imp fun h => of_decide_eq_true h
  · intro a b c hab hbc
    exact decide_eq_true (le_trans (of_decide_eq_true hbc) (of_decide_eq_true hab))
  · intro a b
    rcases le_total a.gap b.gap with h | h <;> simp [h]

/-- Characterization of entry selection: when some entry threshold is
exceeded, the loop returns the amount of a matching rule with the largest
still-exceeded threshold. -/
lemma selectEntry_spec (rules : List Rule) (gap : ℚ)
    (h : ∃ r ∈ rules, r.gap < gap) :
    ∃ r ∈ rules, r.gap < gap ∧ selectEntry rules gap = some r.amount ∧
      ∀ r' ∈ rules, r'.gap < gap → r'.gap ≤ r.gap := by
  have hrev : (sortAsc rules).reverse.Pairwise fun a b => b.gap ≤ a.gap :=
    List.pairwise_reverse.mpr (sortAsc_pairwise rules)
  rw [selectEntry, foldl_override]
  obtain ⟨r0, hr0, hlt0⟩ := h
  have hmem : r0 ∈ (sortAsc rules).reverse := by
    rw [List.mem_reverse]
    exact List.mem_mergeSort.mpr hr0
  cases hf : (sortAsc rules).reverse.find? (entryMatches gap) with
  | none =>
    exact absurd (decide_eq_true hlt0) (List.find?_eq_none.mp hf r0 hmem)
  | some r =>
    obtain ⟨h1, h2⟩ := find_entry_max hrev hf
    have hrmem : r ∈ rules := by
      have hm := List.mem_of_find?_eq_some hf
      rw [List.mem_reverse] at hm
      exact List.mem_mergeSort.mp hm
    refine ⟨r, hrmem, h1, rfl, ?_⟩
    intro r' hr' hlt
    refine h2 r' ?_ hlt
    rw [List.mem_reverse]
    exact List.mem_mergeSort.mpr hr'

/-- Characterization of exit selection: when the gap undercuts some exit
threshold, the loop returns the amount of a matching rule with the most
negative still-undercut threshold. -/
lemma selectExit_spec (rules : List Rule) (gap : ℚ)
    (h : ∃ r ∈ rules, gap < r.gap) :
    ∃ r ∈ rules, gap < r.gap ∧ selectExit rules gap = some r.amount ∧
      ∀ r' ∈ rules, gap < r'.gap → r.gap ≤ r'.gap := by
  have hrev : (sortDesc rules).reverse.Pairwise fun a b => a.gap ≤ b.gap :=
    List.pairwise_reverse.mpr (sortDesc_pairwise rules)
  rw [selectExit, foldl_override]
  obtain ⟨r0, hr0, hlt0⟩ := h
  have hmem : r0 ∈ (sortDesc rules).reverse := by
    rw [List.mem_reverse]
    exact List.mem_mergeSort.mpr hr0
  cases hf : (sortDesc rules).reverse.find? (exitMatches gap) with
  | none =>
    exact absurd (decide_eq_true hlt0) (List.find?_eq_none.mp hf r0 hmem)
  | some r =>
    obtain ⟨h1, h2⟩ := find_exit_min hrev hf
    have hrmem : r ∈ rules := by
      have hm := List.mem_of_find?_eq_some hf
      rw [List.mem_reverse] at hm
      exact List.mem_mergeSort.mp hm
    refine ⟨r, hrmem, h1, rfl, ?_⟩
    intro r' hr' hlt
    refine h2 r' ?_ hlt
    rw [List.mem_reverse]
    exact List.mem_mergeSort.mpr hr'

/-- The exit branch of `handle_data` is reached exactly when the selected
entry amount is falsy: either no entry rule matched, or the matching rule's
amount is `0`. -/
lemma exit_reached_entry_falsy (e x : List Rule) (g a : ℚ)
    (h : triggerDecision e x g = .Exit a) :
    selectEntry e g = none ∨ selectEntry e g = some 0 := by
  rw [triggerDecision] at h
  cases hb : selectEntry e g with
  | none => exact Or.inl rfl
  | some b =>
    rw [hb] at h
    by_cases hb0 : b = 0
    · exact Or.inr (by rw [hb0])
    · simp [pyTruthy, hb0] at h

/-! ### Case lemmas for `place_order` -/

/-- `place_order` returns without orders when the exit-leg exchange does not
hold the market currency at all. -/
lemma place_order_no_currency (ctx : Context) (amount bp sp : ℚ)
    (action : Action)
    (hm : (((legs ctx bp sp action).2.1).balances).lookup ctx.marketCurrency
      = none) :
    place_order ctx amount bp sp action = [] := by
  simp only [place_order, hm]

/-- When the enter-leg cash does not cover the purchase, `place_order`
clamps the amount to `cash / entry_price` and still emits both orders. -/
lemma place_order_clamp (ctx : Context) (amount bp sp : ℚ) (action : Action)
    (m : ℚ)
    (hm : (((legs ctx bp sp action).2.1).balances).lookup ctx.marketCurrency
      = some m)
    (hc : (legs ctx bp sp action).1.1.cash < amount * (legs ctx bp sp action).1.2) :
    place_order ctx amount bp sp action =
      emitted ctx bp sp action
        ((legs ctx bp sp action).1.1.cash / (legs ctx bp sp action).1.2) := by
  simp only [place_order, emitted, hm, if_pos hc]

/-- When cash suffices but the exit-leg market balance is below the
requested amount, `place_order` aborts with no orders. -/
lemma place_order_abort (ctx : Context) (amount bp sp : ℚ) (action : Action)
    (m : ℚ)
    (hm : (((legs ctx bp sp action).2.1).balances).lookup ctx.marketCurrency
      = some m)
    (hc : ¬ (legs ctx bp sp action).1.1.cash
      < amount * (legs ctx bp sp action).1.2)
    (hinv : m < amount) :
    place_order ctx amount bp sp action = [] := by
  simp only [place_order, hm, if_neg hc, if_pos hinv]

/-- When cash and market balance both suffice, `place_order` emits both
orders at the requested amount. -/
lemma place_order_ok (ctx : Context) (amount bp sp : ℚ) (action : Action)
    (m : ℚ)
    (hm : (((legs ctx bp sp action).2.1).balances).lookup ctx.marketCurrency
      = some m)
    (hc : ¬ (legs ctx bp sp action).1.1.cash
      < amount * (legs ctx bp sp action).1.2)
    (hinv : ¬ m < amount) :
    place_order ctx amount bp sp action = emitted ctx bp sp action amount := by
  simp only [place_order, emitted, hm, if_neg hc, if_neg hinv]

/-- Whenever `place_order` emits anything, it emits the order pair
`emitted` for some effective amount `a`, and `a` is positive as soon as the
requested amount, the enter-leg cash and the enter-leg price are. -/
lemma place_order_shape (ctx : Context) (amount bp sp : ℚ) (action : Action)
    (h : place_order ctx amount bp sp action ≠ []) :
    ∃ a : ℚ, place_order ctx amount bp sp action = emitted ctx bp sp action a ∧
      (0 < amount → 0 < (legs ctx bp sp action).1.1.cash →
        0 < (legs ctx bp sp action).1.2 → 0 < a) := by
  cases hm : (((legs ctx bp sp action).2.1).balances).lookup ctx.marketCurrency with
  | none => exact absurd (place_order_no_currency ctx amount bp sp action hm) h
  | some m =>
    by_cases hc : (legs ctx bp sp action).1.1.cash
        < amount * (legs ctx bp sp action).1.2
    · refine ⟨_, place_order_clamp ctx amount bp sp action m hm hc, ?_⟩
      intro _ hcash hprice
      exact div_pos hcash hprice
    · by_cases hinv : m < amount
      · exact absurd (place_order_abort ctx amount bp sp action m hm hc hinv) h
      · exact ⟨amount, place_order_ok ctx amount bp sp action m hm hc hinv,
          fun ha _ _ => ha⟩

/-! ### The claims -/

/-- Claim C1: for every entry rule list and every gap exceeding at least
one rule's threshold, entry selection (ascending sort, last match
overwrites) returns the amount of a matching rule whose threshold is the
largest still exceeded; in particular the configured rules with gap 0.045
select amount 0.1. -/
theorem entry_trigger_last_match (rules : List Rule) (gap : ℚ)
    (h : ∃ r ∈ rules, r.gap < gap) :
    (∃ r ∈ rules, r.gap < gap ∧ selectEntry rules gap = some r.amount ∧
        ∀ r' ∈ rules, r'.gap < gap → r'.gap ≤ r.gap) ∧
    selectEntry entry_points (45/1000) = some (1/10) :=
  ⟨selectEntry_spec rules gap h, by
    rw [selectEntry, sortAsc_of_sorted (by norm_num [entry_points])]
    norm_num [entry_points, entryMatches]⟩

/-- Witness for C1 at the configured rules and gap 0.045. -/
theorem entry_trigger_last_match_witness :
    (∃ r ∈ entry_points, r.gap < (45/1000 : ℚ) ∧
        selectEntry entry_points (45/1000) = some r.amount ∧
        ∀ r' ∈ entry_points, r'.gap < (45/1000 : ℚ) → r'.gap ≤ r.gap) ∧
    selectEntry entry_points (45/1000) = some (1/10) :=
  entry_trigger_last_match entry_points (45/1000)
    ⟨⟨3/100, 5/100⟩, by norm_num [entry_points], by norm_num⟩

/-- Claim C2, counterexample: with entry rule (0.01, 0.0) and exit rule
(0.05, 0.5), gap 0.02 selects the entry amount 0.0 — yet the exit branch is
still evaluated and fires, because `if buy_amount:` treats 0.0 as falsy.
This refutes "exit rules are evaluated only when no entry amount was
selected" as stated. -/
theorem exit_fires_despite_selected_entry_amount :
    triggerDecision [⟨1/100, 0⟩] [⟨5/100, 1/2⟩] (2/100) = .Exit (1/2) ∧
    selectEntry [⟨1/100, 0⟩] (2/100) = some 0 := by
  constructor
  · rw [triggerDecision, selectEntry, selectExit, sortAsc_of_sorted (by simp),
      sortDesc_of_sorted (by simp)]
    norm_num [entryMatches, exitMatches, pyTruthy]
  · rw [selectEntry, sortAsc_of_sorted (by simp)]
    norm_num [entryMatches]

/-- Claim C2 (amended): the exit branch runs only when the selected entry
amount is falsy — none, or 0; exit rules are sorted descending by threshold
and the last match (the most negative threshold still undercut) wins; with
the configured rules and exit rule (−0.02, 0.5), gap −0.03 yields
`Exit 0.5` and gap −0.01 yields `NoAction`. -/
theorem exit_trigger_selection :
    (∀ (e x : List Rule) (g a : ℚ), triggerDecision e x g = .Exit a →
        selectEntry e g = none ∨ selectEntry e g = some 0) ∧
    (∀ (rules : List Rule) (g : ℚ), (∃ r ∈ rules, g < r.gap) →
        ∃ r ∈ rules, g < r.gap ∧ selectExit rules g = some r.amount ∧
          ∀ r' ∈ rules, g < r'.gap → r.gap ≤ r'.gap) ∧
    triggerDecision entry_points exit_points (-3/100) = .Exit (1/2) ∧
    triggerDecision entry_points exit_points (-1/100) = .NoAction := by
  refine ⟨exit_reached_entry_falsy, selectExit_spec, ?_, ?_⟩
  · rw [triggerDecision, selectEntry, selectExit,
      sortAsc_of_sorted (by norm_num [entry_points]),
      sortDesc_of_sorted (by norm_num [exit_points])]
    norm_num [entry_points, exit_points, entryMatches, exitMatches, pyTruthy]
  · rw [triggerDecision, selectEntry, selectExit,
      sortAsc_of_sorted (by norm_num [entry_points]),
      sortDesc_of_sorted (by norm_num [exit_points])]
    norm_num [entry_points, exit_points, entryMatches, exitMatches, pyTruthy]

/-- Witness for the amended C2 at the configured exit rule and gap −0.03. -/
theorem exit_trigger_selection_witness :
    ∃ r ∈ exit_points, (-3/100 : ℚ) < r.gap ∧
      selectExit exit_points (-3/100) = some r.amount ∧
      ∀ r' ∈ exit_points, (-3/100 : ℚ) < r'.gap → r.gap ≤ r'.gap :=
  exit_trigger_selection.2.1 exit_points (-3/100)
    ⟨⟨-2/100, 1/2⟩, by norm_num [exit_points], by norm_num⟩

/-- Claim C3, counterexample: the selling exchange holds exactly 0 of the
market currency, yet with short cash (50 < 20·10) the clamp fires first and
two orders are emitted — refuting "no orders emitted regardless of the
requested amount, prices, or available cash". -/
theorem orders_emitted_despite_zero_market_balance :
    ((sampleCtx 50 0).sellingExchange.balances).lookup
        (sampleCtx 50 0).marketCurrency = some 0 ∧
    place_order (sampleCtx 50 0) 20 10 12 .enter =
      [⟨"bittrex", 5, 51/5⟩, ⟨"bitfinex", -5, 294/25⟩] := by
  constructor
  · norm_num [sampleCtx, List.lookup]
  · norm_num [place_order, sampleCtx, legs, List.lookup]

/-- Claim C3 (amended): if the sell-leg exchange's balance of the market
currency is 0, the requested amount is positive, and the cash clamp did not
fire, no orders are emitted. -/
theorem zero_market_balance_no_orders (ctx : Context) (amount bp sp : ℚ)
    (action : Action)
    (hm : (((legs ctx bp sp action).2.1).balances).lookup ctx.marketCurrency
      = some 0)
    (hc : ¬ (legs ctx bp sp action).1.1.cash
      < amount * (legs ctx bp sp action).1.2)
    (ha : 0 < amount) :
    place_order ctx amount bp sp action = [] :=
  place_order_abort ctx amount bp sp action 0 hm hc ha

/-- Witness for the amended C3: ample cash, zero market balance, positive
amount — no orders. -/
theorem zero_market_balance_no_orders_witness :
    place_order (sampleCtx 1000 0) 2 10 12 .enter = [] :=
  zero_market_balance_no_orders (sampleCtx 1000 0) 2 10 12 .enter
    (by norm_num [sampleCtx, legs, List.lookup])
    (by norm_num [sampleCtx, legs])
    (by norm_num)

/-- Claim C4: the inventory-shortage abort is in the `elif` of the cash
check, so when both cash and inventory are short the cash clamp fires,
emission continues at the clamped amount, and the inventory check is
skipped. -/
theorem cash_shortage_takes_precedence (ctx : Context) (amount bp sp : ℚ)
    (action : Action) (m : ℚ)
    (hm : (((legs ctx bp sp action).2.1).balances).lookup ctx.marketCurrency
      = some m)
    (hcash : (legs ctx bp sp action).1.1.cash
      < amount * (legs ctx bp sp action).1.2)
    (_hinv : m < amount) :
    place_order ctx amount bp sp action =
      emitted ctx bp sp action
        ((legs ctx bp sp action).1.1.cash / (legs ctx bp sp action).1.2) :=
  place_order_clamp ctx amount bp sp action m hm hcash

/-- Witness for C4: cash 50 < 20·10 and inventory 1 < 20 — the clamp wins
and both orders go out at 50/10. -/
theorem cash_shortage_takes_precedence_witness :
    place_order (sampleCtx 50 1) 20 10 12 .enter =
      emitted (sampleCtx 50 1) 10 12 .enter
        ((legs (sampleCtx 50 1) 10 12 .enter).1.1.cash /
          (legs (sampleCtx 50 1) 10 12 .enter).1.2) :=
  cash_shortage_takes_precedence (sampleCtx 50 1) 20 10 12 .enter 1
    (by norm_num [sampleCtx, legs, List.lookup])
    (by norm_num [sampleCtx, legs])
    (by norm_num)

/-- Claim C5: under a cash shortage the amount is replaced by
`cash / entry_price` and emission continues at the reduced size; with cash
100, buy price 10 and requested amount 20 both orders use magnitude 10. -/
theorem cash_clamp_reduces_amount :
    (∀ (ctx : Context) (amount bp sp : ℚ) (action : Action) (m : ℚ),
        (((legs ctx bp sp action).2.1).balances).lookup ctx.marketCurrency
          = some m →
        0 < amount →
        (legs ctx bp sp action).1.1.cash
          < amount * (legs ctx bp sp action).1.2 →
        place_order ctx amount bp sp action =
          emitted ctx bp sp action
            ((legs ctx bp sp action).1.1.cash /
              (legs ctx bp sp action).1.2)) ∧
    place_order (sampleCtx 100 1000) 20 10 12 .enter =
      [⟨"bittrex", 10, 51/5⟩, ⟨"bitfinex", -10, 294/25⟩] := by
  constructor
  · intro ctx amount bp sp action m hm _ hc
    exact place_order_clamp ctx amount bp sp action m hm hc
  · norm_num [place_order, sampleCtx, legs, List.lookup]

/-- Witness for C5 at cash 100, buy price 10, requested amount 20. -/
theorem cash_clamp_reduces_amount_witness :
    place_order (sampleCtx 100 1000) 20 10 12 .enter =
      emitted (sampleCtx 100 1000) 10 12 .enter
        ((legs (sampleCtx 100 1000) 10 12 .enter).1.1.cash /
          (legs (sampleCtx 100 1000) 10 12 .enter).1.2) :=
  cash_clamp_reduces_amount.1 (sampleCtx 100 1000) 20 10 12 .enter 1000
    (by norm_num [sampleCtx, legs, List.lookup])
    (by norm_num)
    (by norm_num [sampleCtx, legs])

/-- Claim C6: if either configured exchange reports an open order for its
instrument, `handle_data` emits nothing for the tick, whatever the prices
(and hence the gap); the gate precedes trigger selection. -/
theorem open_order_gate (ctx : Context) (openOrders : String → List Unit)
    (bp sp : ℚ)
    (h : openOrders ctx.buyingExchange.name ≠ [] ∨
      openOrders ctx.sellingExchange.name ≠ []) :
    handle_data ctx openOrders bp sp = [] := by
  have hany : ([ctx.buyingExchange, ctx.sellingExchange].any
      fun ex => !(openOrders ex.name).isEmpty) = true := by
    rcases h with h | h
    · cases hl : openOrders ctx.buyingExchange.name with
      | nil => exact absurd hl h
      | cons x xs => simp [hl]
    · cases hl : openOrders ctx.sellingExchange.name with
      | nil => exact absurd hl h
      | cons x xs => simp [hl]
  rw [handle_data]
  simp [hany]

/-- Witness for C6: one open order on each exchange suppresses the tick. -/
theorem open_order_gate_witness :
    handle_data (sampleCtx 100 100) (fun _ => [()]) 10 12 = [] :=
  open_order_gate (sampleCtx 100 100) (fun _ => [()]) 10 12
    (Or.inl (by simp))

/-- Claim C7, counterexample: a zero-cash clamp emits a pair of orders both
of amount 0 — equal magnitudes, but the buy leg is not positive and the
signs are not opposite, refuting the claim as stated. -/
theorem order_pair_zero_amounts :
    place_order (sampleCtx 0 100) 5 10 12 .enter =
      [⟨"bittrex", 0, 51/5⟩, ⟨"bitfinex", 0, 294/25⟩] ∧
    ¬ ∃ a : ℚ, 0 < a ∧
      place_order (sampleCtx 0 100) 5 10 12 .enter =
        [⟨"bittrex", a, 51/5⟩, ⟨"bitfinex", -a, 294/25⟩] := by
  have h : place_order (sampleCtx 0 100) 5 10 12 .enter =
      [⟨"bittrex", 0, 51/5⟩, ⟨"bitfinex", 0, 294/25⟩] := by
    norm_num [place_order, sampleCtx, legs, List.lookup]
  refine ⟨h, ?_⟩
  rintro ⟨a, ha, heq⟩
  rw [h] at heq
  simp only [List.cons.injEq, OrderIntent.mk.injEq] at heq
  exact lt_irrefl a (heq.1.2.1 ▸ ha)

/-- Claim C7 (amended): whenever `place_order` emits orders it emits
exactly the pair `emitted` for one effective amount — the sell leg's amount
is the exact negation of the buy leg's, so the magnitudes always agree —
and the buy leg is positive (sell leg negative) whenever the requested
amount, the enter-leg cash and the enter-leg price are all positive; with
zero cash both amounts are 0. -/
theorem order_pair_negation (ctx : Context) (amount bp sp : ℚ)
    (action : Action) (h : place_order ctx amount bp sp action ≠ []) :
    ∃ a : ℚ, place_order ctx amount bp sp action = emitted ctx bp sp action a ∧
      (0 < amount → 0 < (legs ctx bp sp action).1.1.cash →
        0 < (legs ctx bp sp action).1.2 → 0 < a) :=
  place_order_shape ctx amount bp sp action h

/-- Witness for the amended C7 with ample balances. -/
theorem order_pair_negation_witness :
    ∃ a : ℚ, place_order (sampleCtx 300 100) 5 10 12 .enter =
        emitted (sampleCtx 300 100) 10 12 .enter a ∧
      (0 < (5 : ℚ) → 0 < (legs (sampleCtx 300 100) 10 12 .enter).1.1.cash →
        0 < (legs (sampleCtx 300 100) 10 12 .enter).1.2 → 0 < a) :=
  order_pair_negation (sampleCtx 300 100) 5 10 12 .enter
    (by
      norm_num [place_order, sampleCtx, legs, List.lookup]
      simp)

/-- Claim C8: every emitted pair carries slippage-adjusted limit prices —
the buy leg at `entry_price * (1 + slippage_allowed)` and the sell leg at
`exit_price * (1 - slippage_allowed)`; for slippage 0.02 these are the
factors 1.02 and 0.98. -/
theorem slippage_limit_prices (ctx : Context) (amount bp sp : ℚ)
    (action : Action) (o₁ o₂ : OrderIntent)
    (h : place_order ctx amount bp sp action = [o₁, o₂]) :
    (o₁.limit_price = (legs ctx bp sp action).1.2 * (1 + ctx.SLIPPAGE_ALLOWED) ∧
      o₂.limit_price = (legs ctx bp sp action).2.2 * (1 - ctx.SLIPPAGE_ALLOWED)) ∧
    (ctx.SLIPPAGE_ALLOWED = 2/100 →
      o₁.limit_price = (legs ctx bp sp action).1.2 * (102/100) ∧
      o₂.limit_price = (legs ctx bp sp action).2.2 * (98/100)) := by
  have hne : place_order ctx amount bp sp action ≠ [] := by
    rw [h]
    simp
  obtain ⟨a, ha, -⟩ := place_order_shape ctx amount bp sp action hne
  rw [h] at ha
  simp only [emitted, List.cons.injEq, and_true] at ha
  obtain ⟨h1, h2⟩ := ha
  subst h1
  subst h2
  refine ⟨⟨rfl, rfl⟩, ?_⟩
  intro hs
  rw [hs]
  constructor <;> norm_num

/-- Witness for C8 at a concrete emitted pair with slippage 0.02. -/
theorem slippage_limit_prices_witness :
    ((OrderIntent.mk "bittrex" 5 (51/5)).limit_price =
        (legs (sampleCtx 400 100) 10 12 .enter).1.2 *
          (1 + (sampleCtx 400 100).SLIPPAGE_ALLOWED) ∧
      (OrderIntent.mk "bitfinex" (-5) (294/25)).limit_price =
        (legs (sampleCtx 400 100) 10 12 .enter).2.2 *
          (1 - (sampleCtx 400 100).SLIPPAGE_ALLOWED)) ∧
    ((sampleCtx 400 100).SLIPPAGE_ALLOWED = 2/100 →
      (OrderIntent.mk "bittrex" 5 (51/5)).limit_price =
        (legs (sampleCtx 400 100) 10 12 .enter).1.2 * (102/100) ∧
      (OrderIntent.mk "bitfinex" (-5) (294/25)).limit_price =
        (legs (sampleCtx 400 100) 10 12 .enter).2.2 * (98/100)) :=
  slippage_limit_prices (sampleCtx 400 100) 5 10 12 .enter
    (OrderIntent.mk "bittrex" 5 (51/5))
    (OrderIntent.mk "bitfinex" (-5) (294/25))
    (by norm_num [place_order, sampleCtx, legs, List.lookup])

/-- Claim C9: for every positive buying price the gap is
`(selling_price - buying_price) / buying_price` (equivalently
`gap · Pb = Ps - Pb`), and `gap 25 50 = 1`. -/
theorem gap_formula (bp sp : ℚ) (h : 0 < bp) :
    gapOf bp sp = (sp - bp) / bp ∧ gapOf bp sp * bp = sp - bp ∧
    gapOf 25 50 = 1 := by
  refine ⟨rfl, ?_, by norm_num [gapOf]⟩
  rw [gapOf]
  exact div_mul_cancel₀ _ (ne_of_gt h)

/-- Witness for C9 at the documented prices 25 and 50. -/
theorem gap_formula_witness :
    gapOf 25 50 = ((50 : ℚ) - 25) / 25 ∧ gapOf 25 50 * 25 = 50 - 25 ∧
    gapOf 25 50 = 1 :=
  gap_formula 25 50 (by norm_num)

/-- Claim C10: with the market currency present on the exit leg, a positive
requested amount and price, and zero enter-leg cash, `place_order` still
emits the order pair — both orders with amount 0 — instead of emitting
nothing. -/
theorem zero_cash_emits_zero_orders (ctx : Context) (amount bp sp : ℚ)
    (action : Action) (m : ℚ)
    (hm : (((legs ctx bp sp action).2.1).balances).lookup ctx.marketCurrency
      = some m)
    (hcash : (legs ctx bp sp action).1.1.cash = 0)
    (ha : 0 < amount) (hp : 0 < (legs ctx bp sp action).1.2) :
    place_order ctx amount bp sp action = emitted ctx bp sp action 0 ∧
    (emitted ctx bp sp action 0).map OrderIntent.amount = [0, 0] := by
  have hc : (legs ctx bp sp action).1.1.cash
      < amount * (legs ctx bp sp action).1.2 := by
    rw [hcash]
    exact mul_pos ha hp
  constructor
  · rw [place_order_clamp ctx amount bp sp action m hm hc, hcash, zero_div]
  · simp [emitted]

/-- Witness for C10: zero cash, market currency present, amount 7 —
two orders of amount 0. -/
theorem zero_cash_emits_zero_orders_witness :
    place_order (sampleCtx 0 50) 7 10 12 .enter =
      emitted (sampleCtx 0 50) 10 12 .enter 0 ∧
    (emitted (sampleCtx 0 50) 10 12 .enter 0).map OrderIntent.amount
      = [0, 0] :=
  zero_cash_emits_zero_orders (sampleCtx 0 50) 7 10 12 .enter 50
    (by norm_num [sampleCtx, legs, List.lookup])
    (by norm_num [sampleCtx, legs])
    (by norm_num)
    (by norm_num [sampleCtx, legs])

end Arbitrage
